import Mathlib

/-!
Verification of the allocation-v2 fleet charging/allocation system.

Shallow embedding of the Python source:
* datetimes are rationals (minutes since an arbitrary epoch);
* all physical quantities (kWh, kW, prices, scores) are rationals;
* Python dictionaries become Lean functions `key → Option value` or association
  lists, Python lists become Lean lists;
* the Hexaly model-building code is embedded as the list of constraints the
  code emits, together with a satisfaction predicate on candidate solutions.
-/

namespace AllocV2

/-! ## Domain model (src/models) -/

/-- `VehicleChargeState` (src/models/scheduler.py): the fields consumed by the
charge optimizer. -/
structure ChargeState where
  current_soc_kwh : ℚ
  battery_capacity_kwh : ℚ
  ac_charge_rate_kw : ℚ
  deriving Repr, DecidableEq

/-- A route as consumed by the scheduler (src/models/route.py): the fields used
by `_calculate_energy_requirements`. -/
structure SchedRoute where
  route_id : ℕ
  plan_start : ℚ
  plan_end : ℚ
  plan_mileage : ℚ
  deriving Repr, DecidableEq

/-- `RouteEnergyRequirement` (src/models/scheduler.py), restricted to the
fields produced by `SchedulerController._calculate_energy_requirements`. -/
structure EnergyRequirement where
  route_id : ℕ
  plan_start : ℚ
  plan_end : ℚ
  plan_mileage : ℚ
  route_energy_buffer_kwh : ℚ
  cumulative_energy_kwh : ℚ
  route_sequence_index : ℕ
  is_back_to_back : Bool
  gap_to_next_minutes : Option ℚ
  deriving Repr, DecidableEq

/-! ## Constraint manager (src/constraints/constraint_manager.py) -/

/-- A registered constraint as seen by `ConstraintManager`: an `enabled` flag,
whether it is a hard constraint, a name (key of the breakdown dictionary) and
its `evaluate` function over a vehicle and a route sequence. -/
structure Constraint (V R : Type) where
  enabled : Bool
  hard : Bool
  name : ℕ
  eval : V → List R → ℚ

/-- Return value of `ConstraintManager.evaluate_sequence`. -/
structure EvalResult where
  total_cost : ℚ
  breakdown : List (ℕ × ℚ)
  is_feasible : Bool
  deriving Repr, DecidableEq

/-- The evaluation loop of `ConstraintManager.evaluate_sequence`
(constraint_manager.py lines 72-107), with the running total and breakdown as
accumulators.  Disabled constraints are skipped; each evaluated constraint is
added to the breakdown and the total; as soon as a hard constraint returns a
negative cost the function returns with `is_feasible = false`. -/
def evalSeqAux (v : V) (seq : List R) :
    List (Constraint V R) → ℚ → List (ℕ × ℚ) → EvalResult
  | [], total, breakdown => ⟨total, breakdown, true⟩
  | c :: rest, total, breakdown =>
    if c.enabled = false then
      evalSeqAux v seq rest total breakdown
    else
      let cost := c.eval v seq
      let breakdown' := breakdown ++ [(c.name, cost)]
      let total' := total + cost
      if c.hard = true ∧ cost < 0 then
        ⟨total', breakdown', false⟩
      else
        evalSeqAux v seq rest total' breakdown'

/-- `ConstraintManager.evaluate_sequence`. -/
def evaluateSequence (cs : List (Constraint V R)) (v : V) (seq : List R) :
    EvalResult :=
  evalSeqAux v seq cs 0 []

/-- Whether a constraint is a violated hard constraint for `(v, seq)`. -/
def violatesHard (v : V) (seq : List R) (c : Constraint V R) : Bool :=
  c.hard && decide (c.eval v seq < 0)

/-- The prefix of a constraint list up to and including the first violated
hard constraint (all of it when no hard constraint is violated). -/
def takeUntilViolation (v : V) (seq : List R) :
    List (Constraint V R) → List (Constraint V R)
  | [] => []
  | c :: rest =>
    c :: (if violatesHard v seq c then [] else takeUntilViolation v seq rest)

/-! ## Acceptance gate (src/models/allocation.py, allocation_controller.py) -/

/-- `AllocationResult` restricted to the fields read and written by the
acceptance gate (`is_acceptable`, phases 6-7 of `run_allocation`). -/
structure GateResult where
  total_score : ℚ
  status : Char
  deriving Repr, DecidableEq

/-- `AllocationResult.is_acceptable` (allocation.py lines 67-77):
`total_score >= min_score`. -/
def isAcceptable (r : GateResult) (minScore : ℚ) : Bool :=
  decide (minScore ≤ r.total_score)

/-- Default `min_score` of `AllocationResult.is_acceptable`. -/
def defaultMinScore : ℚ := -4

/-- Externally visible database effects of the final phases of
`AllocationController.run_allocation`. -/
inductive DbEffect
  | persistAllocation
  | updateMonitor (status : Char)
  deriving Repr, DecidableEq

/-- Phases 6-7 of `AllocationController.run_allocation` (lines 86-98): if the
result is acceptable, persist it and set status `'A'`; otherwise set status
`'F'` and skip persistence; in both cases update the allocation monitor with
the final result. -/
def finalizeAllocation (result : GateResult) : GateResult × List DbEffect :=
  if isAcceptable result defaultMinScore then
    let r := { result with status := 'A' }
    (r, [DbEffect.persistAllocation, DbEffect.updateMonitor r.status])
  else
    let r := { result with status := 'F' }
    (r, [DbEffect.updateMonitor r.status])

/-! ## Planning window (src/controllers/scheduler_controller.py) -/

/-- `SchedulerController._floor_to_30_min` (lines 178-181): replace the minute
field by `(minute // 30) * 30` and zero the seconds.  With datetimes as
rational minutes since an epoch this is flooring to a multiple of 30 minutes
(hour boundaries are themselves multiples of 30 minutes). -/
def floorTo30Min (t : ℚ) : ℚ := 30 * (⌊t / 30⌋ : ℤ)

/-- The triple returned by `SchedulerController._calculate_planning_window`. -/
structure PlanningWindow where
  planningStart : ℚ
  planningEnd : ℚ
  actualHours : ℚ
  deriving Repr, DecidableEq

/-- `SchedulerController._calculate_planning_window` (lines 252-332):
`planning_end` is the minimum of the target end (`start + hours`), the maximum
forecast timestamp and the maximum price timestamp, the latter two only when
present; `actual_hours` is the resulting window length in hours. -/
def calculatePlanningWindow (currentTime windowHours : ℚ)
    (maxForecastTime maxPriceTime : Option ℚ) : PlanningWindow :=
  let planningStart := currentTime
  let planningTargetEnd := currentTime + windowHours * 60
  let e1 := match maxForecastTime with
    | some t => min planningTargetEnd t
    | none => planningTargetEnd
  let planningEnd := match maxPriceTime with
    | some t => min e1 t
    | none => e1
  { planningStart := planningStart
    planningEnd := planningEnd
    actualHours := (planningEnd - planningStart) / 60 }

/-- The window-setup part of `SchedulerController.run_scheduling` (lines
55-88): floor the current time to a 30-minute boundary, compute the planning
window, and raise when `actual_hours < 4.0`. -/
def runSchedulingWindow (currentTime windowHours : ℚ)
    (maxForecastTime maxPriceTime : Option ℚ) : Except String PlanningWindow :=
  let t := floorTo30Min currentTime
  let w := calculatePlanningWindow t windowHours maxForecastTime maxPriceTime
  if w.actualHours < 4 then
    Except.error "Planning window too short"
  else
    Except.ok w

/-! ## Energy requirements (scheduler_controller.py lines 478-547) -/

/-- The per-route loop body of
`SchedulerController._calculate_energy_requirements`: walk the sorted routes
accumulating the cumulative energy, recording for each route its energy
buffer `plan_mileage * efficiency * safety_factor`, the running cumulative
energy, the sequence index, and the back-to-back gap to the next route. -/
def calcEnergyAux (efficiency safety threshold : ℚ) :
    ℕ → ℚ → List SchedRoute → List EnergyRequirement
  | _, _, [] => []
  | idx, cum, route :: rest =>
    let routeEnergy := route.plan_mileage * efficiency * safety
    let cum' := cum + routeEnergy
    let gapMinutes : Option ℚ :=
      match rest with
      | [] => none
      | next :: _ => some (next.plan_start - route.plan_end)
    let isB2b : Bool :=
      match rest with
      | [] => false
      | next :: _ => decide (next.plan_start - route.plan_end < threshold)
    { route_id := route.route_id
      plan_start := route.plan_start
      plan_end := route.plan_end
      plan_mileage := route.plan_mileage
      route_energy_buffer_kwh := routeEnergy
      cumulative_energy_kwh := cum'
      route_sequence_index := idx
      is_back_to_back := isB2b
      gap_to_next_minutes := gapMinutes } ::
    calcEnergyAux efficiency safety threshold (idx + 1) cum' rest

/-- `SchedulerController._calculate_energy_requirements`, body for one
vehicle with a non-empty route list and a present charge state: sort the
routes by `plan_start_date_time` (Python `sorted` is stable, as is insertion
sort) and accumulate the requirements. -/
def calculateEnergyRequirements (efficiency safety threshold : ℚ)
    (routes : List SchedRoute) : List EnergyRequirement :=
  calcEnergyAux efficiency safety threshold 0 0
    (List.insertionSort (fun a b => a.plan_start ≤ b.plan_start) routes)

/-- Running prefix sums starting from an accumulator: the mathematical notion
against which the cumulative energies are checked. -/
def prefixSumsFrom : ℚ → List ℚ → List ℚ
  | _, [] => []
  | acc, x :: xs => (acc + x) :: prefixSumsFrom (acc + x) xs

/-! ## Charge optimizer (src/optimizer/charge_optimizer.py) -/

/-- `ChargeOptimizer._find_time_slot_index` (lines 507-513): index of the
first time slot `≥ target`, `none` when every slot is earlier. -/
def findTimeSlotIndex (target : ℚ) : List ℚ → Option ℕ
  | [] => none
  | s :: rest =>
    if s ≥ target then some 0
    else (findTimeSlotIndex target rest).map (· + 1)

/-- The dict comprehension
`vehicle_to_idx = {v.vehicle_id: idx for idx, v in enumerate(vehicles)}`
(line 127) followed by a lookup: the index of the last occurrence of
`vid` (later dict entries overwrite earlier ones). -/
def vehicleToIdxFrom (vid : ℕ) : ℕ → List ℕ → Option ℕ → Option ℕ
  | _, [], acc => acc
  | i, v :: rest, acc =>
    vehicleToIdxFrom vid (i + 1) rest (if v = vid then some i else acc)

/-- `vehicle_to_idx[vid]` as an optional lookup. -/
def vehicleToIdx (vehicles : List ℕ) (vid : ℕ) : Option ℕ :=
  vehicleToIdxFrom vid 0 vehicles none

/-- A lower-bound constraint `cumulative_energy[slot_idx][v_idx] >= bound`
added to the Hexaly model. -/
structure CumLBConstraint where
  v_idx : ℕ
  slot_idx : ℕ
  bound : ℚ
  deriving Repr, DecidableEq

/-- The route-energy-requirement constraints (EQ-ROUTE) emitted by
`ChargeOptimizer.optimize` (lines 280-323): for each vehicle with a present
state and a non-empty requirement list, for each requirement whose departure
maps to a slot index `> 0`, require the cumulative energy at the previous
slot to reach `max(max(0, cum - soc), max(0, min_soc_kwh - soc))`. -/
def routeCheckpointConstraints (vehicles : List ℕ)
    (states : ℕ → Option ChargeState)
    (reqs : ℕ → List EnergyRequirement)
    (timeSlots : List ℚ) (minSocPercent : ℚ) : List CumLBConstraint :=
  vehicles.flatMap (fun vid =>
    match vehicleToIdx vehicles vid, states vid with
    | some vIdx, some st =>
      if reqs vid = [] then []
      else
        (reqs vid).flatMap (fun r =>
          match findTimeSlotIndex r.plan_start timeSlots with
          | none => []
          | some checkpointIdx =>
            if 0 < checkpointIdx then
              let requiredForRoute :=
                max 0 (r.cumulative_energy_kwh - st.current_soc_kwh)
              let minSocKwh := minSocPercent / 100 * st.battery_capacity_kwh
              let requiredForMinSoc := max 0 (minSocKwh - st.current_soc_kwh)
              [{ v_idx := vIdx, slot_idx := checkpointIdx - 1,
                 bound := max requiredForRoute requiredForMinSoc }]
            else [])
    | _, _ => [])

/-- An upper-bound constraint `sum_v charge_power[slot_idx][v] <= bound`
added to the Hexaly model. -/
structure PowerUBConstraint where
  slot_idx : ℕ
  bound : ℚ
  deriving Repr, DecidableEq

/-- The site-capacity constraints (EQ-02) emitted by
`ChargeOptimizer.optimize` (lines 348-364): per slot, the total charging
power is bounded by `max(0, site_capacity - forecast)`, plus a redundant
bound by `site_capacity - forecast` itself when that is positive. -/
def siteCapacityConstraints (siteCapacityKw : ℚ) (forecastAt : ℚ → ℚ)
    (timeSlots : List ℚ) : List PowerUBConstraint :=
  timeSlots.enum.flatMap (fun p =>
    let availableCapacity := siteCapacityKw - forecastAt p.2
    { slot_idx := p.1, bound := max 0 availableCapacity } ::
      (if 0 < availableCapacity then
        [{ slot_idx := p.1, bound := availableCapacity }]
      else []))

/-- `model.sum(charge_power[t_idx])`: total charging power over the vehicle
columns at slot `t`. -/
def totalChargingPower (power : ℕ → ℕ → ℚ) (t nVehicles : ℕ) : ℚ :=
  ((List.range nVehicles).map (power t)).sum

/-- A candidate power matrix satisfies a list of emitted total-power
upper-bound constraints. -/
def satisfiesPowerUB (power : ℕ → ℕ → ℚ) (nVehicles : ℕ)
    (cs : List PowerUBConstraint) : Prop :=
  ∀ c ∈ cs, totalChargingPower power c.slot_idx nVehicles ≤ c.bound

/-- `ChargeSlot` as produced by `ChargeOptimizer._greedy_fallback`. -/
structure OutChargeSlot where
  time_slot : ℚ
  charge_power_kw : ℚ
  cumulative_energy_kwh : ℚ
  electricity_price : ℚ
  is_triad_period : Bool
  deriving Repr, DecidableEq

/-- The target-energy computation of `ChargeOptimizer._greedy_fallback`
(lines 548-556): with requirements, `max(last cumulative + soc, min_soc_kwh)`;
otherwise `max(target_soc, min_soc)/100 * battery`. -/
def targetEnergyKwh (st : ChargeState) (reqs : List EnergyRequirement)
    (targetSocPercent minSocPercent : ℚ) : ℚ :=
  let minSocKwh := minSocPercent / 100 * st.battery_capacity_kwh
  match reqs.getLast? with
  | some lastReq =>
    max (lastReq.cumulative_energy_kwh + st.current_soc_kwh) minSocKwh
  | none => max targetSocPercent minSocPercent / 100 * st.battery_capacity_kwh

/-- The `slot_prices` list of `_greedy_fallback` (lines 573-582): for each
available slot, the tuple `(effective_price, idx, slot_time, price,
is_triad)` where TRIAD slots are penalised by `+100`. -/
def slotPrices (avail : List Bool) (timeSlots : List ℚ)
    (priceData : ℚ → ℚ × Bool) : List (ℚ × ℕ × ℚ × ℚ × Bool) :=
  timeSlots.enum.filterMap (fun p =>
    if avail.getD p.1 false then
      let pr := priceData p.2
      some (pr.1 + (if pr.2 then 100 else 0), p.1, p.2, pr.1, pr.2)
    else none)

/-- The charging loop of `_greedy_fallback` (lines 585-607): walk the
price-sorted slots, stop as soon as the cumulative reaches `energy_needed`,
otherwise charge `min(rate * 0.5, energy_needed - cumulative)` kWh in the
slot. -/
def greedyAllocateSlots (chargeRate energyNeeded : ℚ) :
    ℚ → List (ℚ × ℕ × ℚ × ℚ × Bool) → List OutChargeSlot
  | _, [] => []
  | cum, entry :: rest =>
    if energyNeeded ≤ cum then []
    else
      let energyThisSlot := min (chargeRate * (1 / 2)) (energyNeeded - cum)
      let powerThisSlot := energyThisSlot / (1 / 2)
      let cum' := cum + energyThisSlot
      { time_slot := entry.2.2.1, charge_power_kw := powerThisSlot,
        cumulative_energy_kwh := cum',
        electricity_price := entry.2.2.2.1,
        is_triad_period := entry.2.2.2.2 } ::
      greedyAllocateSlots chargeRate energyNeeded cum' rest

/-- `ChargeOptimizer._greedy_fallback`, body for one vehicle with a present
state: compute the energy needed, pick the cheapest available slots
greedily, then sort the chosen slots by time.  Note the fallback receives
neither `forecast_data` nor `site_capacity_kw`. -/
def greedyVehicleChargeSlots (st : ChargeState) (reqs : List EnergyRequirement)
    (avail : Option (List Bool)) (timeSlots : List ℚ)
    (priceData : ℚ → ℚ × Bool) (targetSocPercent minSocPercent : ℚ) :
    List OutChargeSlot :=
  let targetEnergy := targetEnergyKwh st reqs targetSocPercent minSocPercent
  let energyNeeded := targetEnergy - st.current_soc_kwh
  if energyNeeded ≤ 0 then []
  else
    let sps := match avail with
      | some av => slotPrices av timeSlots priceData
      | none => []
    let sorted := List.insertionSort (fun a b => a.1 ≤ b.1) sps
    let slots := greedyAllocateSlots st.ac_charge_rate_kw energyNeeded 0 sorted
    List.insertionSort (fun a b => a.time_slot ≤ b.time_slot) slots

/-- `ChargeOptimizer._greedy_fallback` over the fleet: one schedule per
vehicle with a present charge state. -/
def greedyFallbackSchedules (vehicles : List ℕ)
    (states : ℕ → Option ChargeState)
    (reqs : ℕ → List EnergyRequirement)
    (avail : ℕ → Option (List Bool))
    (timeSlots : List ℚ) (priceData : ℚ → ℚ × Bool)
    (targetSocPercent minSocPercent : ℚ) : List (ℕ × List OutChargeSlot) :=
  vehicles.filterMap (fun vid =>
    match states vid with
    | none => none
    | some st =>
      some (vid, greedyVehicleChargeSlots st (reqs vid) (avail vid) timeSlots
        priceData targetSocPercent minSocPercent))

/-- Total scheduled charging power of a fleet schedule at a given slot
time. -/
def totalScheduledPowerAt (schedules : List (ℕ × List OutChargeSlot))
    (t : ℚ) : ℚ :=
  (schedules.map (fun p =>
    ((p.2.filter (fun s => decide (s.time_slot = t))).map
      (·.charge_power_kw)).sum)).sum

/-! ## Allocation solver (src/optimizer/hexaly_solver.py) -/

/-- A `(vehicle_id, route_sequence, cost)` triple; only the route ids of the
sequence matter to the allocation solver's selection logic. -/
structure AllocSequence where
  vehicle_id : ℕ
  route_ids : List ℕ
  cost : ℚ
  deriving Repr, DecidableEq

/-- `covered_routes.update(route_ids_in_seq)`: set insertion, modelled on
duplicate-free lists. -/
def insertNew (covered : List ℕ) (rids : List ℕ) : List ℕ :=
  rids.foldl (fun acc rid => if rid ∈ acc then acc else acc ++ [rid]) covered

/-- The selection loop of `HexalySolver._greedy_fallback` (lines 173-192):
walk the cost-sorted sequences; skip a sequence whose vehicle is already
used or one of whose routes is already covered; otherwise select it; stop
right after the selection that covers the last route. -/
def greedyAllocAux (nRoutes : ℕ) :
    List AllocSequence → List ℕ → List ℕ → List AllocSequence
  | [], _, _ => []
  | s :: rest, usedVehicles, coveredRoutes =>
    if s.vehicle_id ∈ usedVehicles then
      greedyAllocAux nRoutes rest usedVehicles coveredRoutes
    else if ∃ rid ∈ s.route_ids, rid ∈ coveredRoutes then
      greedyAllocAux nRoutes rest usedVehicles coveredRoutes
    else
      let covered' := insertNew coveredRoutes s.route_ids
      s :: (if covered'.length = nRoutes then []
            else greedyAllocAux nRoutes rest (s.vehicle_id :: usedVehicles)
              covered')

/-- `HexalySolver._greedy_fallback`: sequences in descending-cost order
(`np.argsort(sequence_costs)[::-1]`; argsort's default quicksort is
unstable, so the tie order is unspecified — insertion sort by `≥` realises
one admissible order), then the greedy selection loop. -/
def greedyAllocFallback (sequences : List AllocSequence)
    (routeIds : List ℕ) : List AllocSequence :=
  greedyAllocAux routeIds.length
    (List.insertionSort (fun a b => b.cost ≤ a.cost) sequences) [] []

/-- Sequence indices grouped per vehicle (`vehicle_to_sequences`, lines
68-70): the model adds `sum(x_i for i in these) <= 1` per vehicle. -/
def seqIndicesForVehicle (seqs : List AllocSequence) (vid : ℕ) : List ℕ :=
  (seqs.enum.filter (fun p => decide (p.2.vehicle_id = vid))).map (·.1)

/-- Sequence indices covering a route (`route_coverage`, lines 66-73): the
model adds `sum(x_i for i in these) <= 1` per route id of `route_ids`. -/
def seqIndicesCoveringRoute (seqs : List AllocSequence) (rid : ℕ) : List ℕ :=
  (seqs.enum.filter (fun p => decide (rid ∈ p.2.route_ids))).map (·.1)

/-- Value of `sum(sequence_vars[i] for i in idxs)` under a 0/1 assignment. -/
def selectedCount (x : ℕ → Bool) (idxs : List ℕ) : ℕ :=
  (idxs.filter x).length

/-- A 0/1 assignment to the sequence variables satisfies the exclusivity
constraints emitted by `HexalySolver.solve` (lines 75-95): at most one
sequence per vehicle, at most one selected covering sequence per route of
`route_ids`. -/
def allocExclusivityConstraintsHold (seqs : List AllocSequence)
    (routeIds : List ℕ) (x : ℕ → Bool) : Prop :=
  (∀ vid ∈ seqs.map (·.vehicle_id),
    selectedCount x (seqIndicesForVehicle seqs vid) ≤ 1) ∧
  (∀ rid ∈ routeIds,
    selectedCount x (seqIndicesCoveringRoute seqs rid) ≤ 1)

/-! ## Allocation result creation (hexaly_solver.py lines 206-259,
src/models/allocation.py) -/

/-- A route inside a selected sequence: the fields `create_allocation_result`
reads. -/
structure RouteInfo where
  route_id : ℕ
  plan_end_date_time : ℚ
  deriving Repr, DecidableEq

/-- A selected `(vehicle_id, route_sequence, cost)` triple as consumed by
`create_allocation_result`. -/
structure SelectedSeq where
  vehicle_id : ℕ
  route_sequence : List RouteInfo
  cost : ℚ
  deriving Repr, DecidableEq

/-- `RouteAllocation` (src/models/allocation.py). -/
structure RouteAllocationV where
  route_id : ℕ
  vehicle_id : ℕ
  estimated_arrival : ℚ
  estimated_arrival_soc : ℚ
  cost : ℚ
  deriving Repr, DecidableEq

/-- `AllocationResult` (src/models/allocation.py), restricted to the fields
touched by `create_allocation_result`. -/
structure AllocationResultV where
  total_score : ℚ
  routes_in_window : ℕ
  routes_allocated : ℕ
  allocations : List RouteAllocationV
  unallocated_routes : List ℕ
  status : Char
  deriving Repr, DecidableEq

/-- `AllocationResult.add_allocation` (allocation.py lines 57-61): append
the allocation, bump `routes_allocated`, and add the allocation's cost to
`total_score`. -/
def addAllocation (res : AllocationResultV) (a : RouteAllocationV) :
    AllocationResultV :=
  { res with allocations := res.allocations ++ [a],
             routes_allocated := res.routes_allocated + 1,
             total_score := res.total_score + a.cost }

/-- `AllocationResult.mark_unallocated` (allocation.py lines 63-65). -/
def markUnallocated (res : AllocationResultV) (rid : ℕ) : AllocationResultV :=
  { res with unallocated_routes := res.unallocated_routes ++ [rid] }

/-- The `RouteAllocation(...)` constructor call inside
`create_allocation_result` (lines 243-249): arrival is the route's planned
end, the arrival SOC is the hard-coded placeholder `80.0`, and the
sequence's cost is distributed evenly over its routes. -/
def mkRouteAllocation (s : SelectedSeq) (route : RouteInfo) :
    RouteAllocationV :=
  { route_id := route.route_id, vehicle_id := s.vehicle_id,
    estimated_arrival := route.plan_end_date_time,
    estimated_arrival_soc := 80,
    cost := s.cost / (s.route_sequence.length : ℚ) }

/-- `HexalySolver.create_allocation_result` (lines 206-259): start from a
result whose `total_score` is the solution's `total_score`; for each route
of each selected sequence add a `RouteAllocation` with
`estimated_arrival = route.plan_end_date_time`, the placeholder
`estimated_arrival_soc = 80.0` and `cost = sequence_cost / len(sequence)`;
finally mark the remaining route ids unallocated. -/
def createAllocationResult (selectedSequences : List SelectedSeq)
    (solutionTotalScore : ℚ) (allRouteIds : List ℕ) : AllocationResultV :=
  let init : AllocationResultV :=
    { total_score := solutionTotalScore,
      routes_in_window := allRouteIds.length,
      routes_allocated := 0, allocations := [], unallocated_routes := [],
      status := 'P' }
  let afterAdds := selectedSequences.foldl (fun res s =>
    s.route_sequence.foldl (fun res route =>
      addAllocation res (mkRouteAllocation s route)) res) init
  let allocatedRoutes :=
    (selectedSequences.flatMap (·.route_sequence)).map (·.route_id)
  allRouteIds.foldl (fun res rid =>
    if rid ∈ allocatedRoutes then res else markUnallocated res rid) afterAdds

end AllocV2

namespace AllocV2

/-! ## Theorems: constraint manager (C4) -/

theorem evalSeqAux_spec (v : V) (seq : List R) (cs : List (Constraint V R))
    (total : ℚ) (breakdown : List (ℕ × ℚ)) :
    evalSeqAux v seq cs total breakdown =
      ⟨total + (((takeUntilViolation v seq (cs.filter (·.enabled))).map
          (fun c => c.eval v seq)).sum),
        breakdown ++ ((takeUntilViolation v seq (cs.filter (·.enabled))).map
          (fun c => (c.name, c.eval v seq))),
        !((cs.filter (·.enabled)).any (violatesHard v seq))⟩ := by
  induction cs generalizing total breakdown with
  | nil => simp [evalSeqAux, takeUntilViolation]
  | cons c rest ih =>
    by_cases hen : c.enabled = true
    · have hfil : (c :: rest).filter (·.enabled) =
          c :: rest.filter (·.enabled) := by
        simp [List.filter_cons, hen]
      by_cases hv : c.hard = true ∧ c.eval v seq < 0
      · have hvb : violatesHard v seq c = true := by
          simp [violatesHard, hv.1, hv.2]
        simp [evalSeqAux, hen, hv, hfil, takeUntilViolation, hvb]
      · have hvb : violatesHard v seq c = false := by
          unfold violatesHard
          by_cases hh : c.hard = true
          · have hnl : ¬ c.eval v seq < 0 := fun hlt => hv ⟨hh, hlt⟩
            simp [hh, hnl]
          · have hhf : c.hard = false := by simpa using hh
            simp [hhf]
        have hstep : evalSeqAux v seq (c :: rest) total breakdown =
            evalSeqAux v seq rest (total + c.eval v seq)
              (breakdown ++ [(c.name, c.eval v seq)]) := by
          simp [evalSeqAux, hen, hv]
        rw [hstep, ih, hfil]
        simp [takeUntilViolation, hvb, add_assoc]
    · have hen' : c.enabled = false := by
        simpa using hen
      have hfil : (c :: rest).filter (·.enabled) = rest.filter (·.enabled) := by
        simp [List.filter_cons, hen']
      simp [evalSeqAux, hen', hfil, ih]

/-- C4: `ConstraintManager.evaluate_sequence` returns `is_feasible = false`
exactly when some enabled hard constraint evaluates to a negative cost, and in
that case evaluation stops at the first such constraint: the returned
`total_cost` and `breakdown` only contain the enabled constraints up to and
including the first violated hard constraint. -/
theorem evaluateSequence_fail_fast (cs : List (Constraint V R)) (v : V)
    (seq : List R) :
    ((evaluateSequence cs v seq).is_feasible = false ↔
      ∃ c ∈ cs, c.enabled = true ∧ c.hard = true ∧ c.eval v seq < 0) ∧
    evaluateSequence cs v seq =
      ⟨(((takeUntilViolation v seq (cs.filter (·.enabled))).map
          (fun c => c.eval v seq)).sum),
        ((takeUntilViolation v seq (cs.filter (·.enabled))).map
          (fun c => (c.name, c.eval v seq))),
        !((cs.filter (·.enabled)).any (violatesHard v seq))⟩ := by
  constructor
  · rw [evaluateSequence, evalSeqAux_spec]
    simp [violatesHard, List.any_eq_true, and_assoc]
  · rw [evaluateSequence, evalSeqAux_spec]
    simp

/-! ## Theorems: acceptance gate (C6) -/

/-- C6: after the solve phase of `run_allocation`, the result is persisted iff
`total_score ≥ -4` (the default `min_score`); the final status is `'A'` in
that case and `'F'` otherwise; and in both cases the allocation monitor is
updated with the final status. -/
theorem finalizeAllocation_gate (result : GateResult) :
    (DbEffect.persistAllocation ∈ (finalizeAllocation result).2 ↔
      defaultMinScore ≤ result.total_score) ∧
    (finalizeAllocation result).1.status =
      (if defaultMinScore ≤ result.total_score then 'A' else 'F') ∧
    DbEffect.updateMonitor (finalizeAllocation result).1.status ∈
      (finalizeAllocation result).2 := by
  by_cases h : defaultMinScore ≤ result.total_score <;>
    simp [finalizeAllocation, isAcceptable, h]

/-! ## Theorems: planning window (C8, C9) -/

/-- C9 counterexample: at current time T = 00:15 the run proceeds with
planning start 00:00, which is strictly earlier than T — the start is
floored, not snapped up to a boundary `≥ T`. -/
theorem runSchedulingWindow_floors_down_cex :
    runSchedulingWindow 15 24 none none =
      Except.ok ⟨0, 1440, 24⟩ ∧ (0 : ℚ) < 15 := by
  have hfl : ⌊(15 : ℚ) / 30⌋ = 0 := by
    rw [Int.floor_eq_zero_iff]
    constructor <;> norm_num
  have hf : floorTo30Min 15 = 0 := by
    simp [floorTo30Min, hfl]
  refine ⟨?_, by norm_num⟩
  simp only [runSchedulingWindow, calculatePlanningWindow, hf]
  norm_num [PlanningWindow.mk.injEq]

/-- C9 (amended): the scheduling horizon starts at the current time T snapped
DOWN to the latest 30-minute boundary `≤ T` (never later than T), ends at the
snapped start plus `min(window, forecast_horizon, price_horizon)` measured
from that start, and the run is rejected exactly when the resulting length is
below 4 hours. -/
theorem schedulingHorizon_snapped_down (T wh fH pH : ℚ) :
    (floorTo30Min T ≤ T ∧ T < floorTo30Min T + 30 ∧
      ∃ k : ℤ, floorTo30Min T = 30 * k) ∧
    (calculatePlanningWindow (floorTo30Min T) wh
        (some (floorTo30Min T + fH * 60))
        (some (floorTo30Min T + pH * 60))).planningStart = floorTo30Min T ∧
    (calculatePlanningWindow (floorTo30Min T) wh
        (some (floorTo30Min T + fH * 60))
        (some (floorTo30Min T + pH * 60))).planningEnd
      = floorTo30Min T + 60 * min wh (min fH pH) ∧
    (runSchedulingWindow T wh (some (floorTo30Min T + fH * 60))
        (some (floorTo30Min T + pH * 60)) =
      Except.error "Planning window too short" ↔ min wh (min fH pH) < 4) := by
  have h1 : ((⌊T / 30⌋ : ℤ) : ℚ) ≤ T / 30 := Int.floor_le _
  have h2 : T / 30 < (⌊T / 30⌋ : ℤ) + 1 := Int.lt_floor_add_one _
  have hT : (30 : ℚ) * (T / 30) = T := by ring
  have hEnd : ∀ t0 : ℚ,
      min (min (t0 + wh * 60) (t0 + fH * 60)) (t0 + pH * 60)
        = t0 + 60 * min wh (min fH pH) := by
    intro t0
    simp only [min_def]
    split_ifs <;> linarith
  refine ⟨⟨?_, ?_, ⟨⌊T / 30⌋, rfl⟩⟩, ?_, ?_, ?_⟩
  · unfold floorTo30Min; linarith
  · unfold floorTo30Min; linarith
  · simp [calculatePlanningWindow]
  · simp only [calculatePlanningWindow]
    exact hEnd _
  · have hAH : (calculatePlanningWindow (floorTo30Min T) wh
        (some (floorTo30Min T + fH * 60))
        (some (floorTo30Min T + pH * 60))).actualHours
        = min wh (min fH pH) := by
      simp only [calculatePlanningWindow]
      rw [hEnd]
      ring
    by_cases hm : min wh (min fH pH) < 4 <;>
      simp [runSchedulingWindow, hAH, hm]

/-- C8 counterexample: with an 24-hour target window and a forecast horizon
of only 6 hours, `actual_hours = 6 < 12 = target/2`, yet the run proceeds
(it only errors below the fixed 4-hour minimum). -/
theorem halfWindow_not_enforced_cex :
    runSchedulingWindow 0 24 (some 360) (some 1440) =
      Except.ok ⟨0, 360, 6⟩ ∧ (6 : ℚ) < 24 / 2 := by
  have hf : floorTo30Min 0 = 0 := by
    simp [floorTo30Min]
  refine ⟨?_, by norm_num⟩
  simp only [runSchedulingWindow, calculatePlanningWindow, hf]
  norm_num [PlanningWindow.mk.injEq, min_def]

/-- C8 (amended): `actual_hours` is the minimum of the target window and the
forecast and price horizons measured from the planning start; the run errors
before solving exactly when `actual_hours < 4.0` (a fixed threshold, not half
the target window). -/
theorem actualHours_min_and_threshold (t0 wh fH pH : ℚ) :
    (calculatePlanningWindow t0 wh (some (t0 + fH * 60))
        (some (t0 + pH * 60))).actualHours = min wh (min fH pH) ∧
    ∀ T wh' mf mp, (runSchedulingWindow T wh' mf mp =
        Except.error "Planning window too short" ↔
      (calculatePlanningWindow (floorTo30Min T) wh' mf mp).actualHours < 4) := by
  constructor
  · have hEnd : min (min (t0 + wh * 60) (t0 + fH * 60)) (t0 + pH * 60)
        = t0 + 60 * min wh (min fH pH) := by
      simp only [min_def]
      split_ifs <;> linarith
    simp only [calculatePlanningWindow]
    rw [hEnd]
    ring
  · intro T wh' mf mp
    by_cases hc : (calculatePlanningWindow (floorTo30Min T) wh' mf mp).actualHours < 4 <;>
      simp [runSchedulingWindow, hc]

/-! ## Theorems: energy requirements (C5) -/

theorem calcEnergyAux_map_route_id (e s t : ℚ) (rs : List SchedRoute) :
    ∀ idx cum, (calcEnergyAux e s t idx cum rs).map (·.route_id)
      = rs.map (·.route_id) := by
  induction rs with
  | nil => intro idx cum; simp [calcEnergyAux]
  | cons r rest ih => intro idx cum; simp [calcEnergyAux, ih]

theorem calcEnergyAux_map_energy (e s t : ℚ) (rs : List SchedRoute) :
    ∀ idx cum, (calcEnergyAux e s t idx cum rs).map (·.route_energy_buffer_kwh)
      = rs.map (fun r => r.plan_mileage * e * s) := by
  induction rs with
  | nil => intro idx cum; simp [calcEnergyAux]
  | cons r rest ih => intro idx cum; simp [calcEnergyAux, ih]

theorem calcEnergyAux_map_plan_start (e s t : ℚ) (rs : List SchedRoute) :
    ∀ idx cum, (calcEnergyAux e s t idx cum rs).map (·.plan_start)
      = rs.map (·.plan_start) := by
  induction rs with
  | nil => intro idx cum; simp [calcEnergyAux]
  | cons r rest ih => intro idx cum; simp [calcEnergyAux, ih]

theorem calcEnergyAux_map_cumulative (e s t : ℚ) (rs : List SchedRoute) :
    ∀ idx cum, (calcEnergyAux e s t idx cum rs).map (·.cumulative_energy_kwh)
      = prefixSumsFrom cum (rs.map (fun r => r.plan_mileage * e * s)) := by
  induction rs with
  | nil => intro idx cum; simp [calcEnergyAux, prefixSumsFrom]
  | cons r rest ih => intro idx cum; simp [calcEnergyAux, prefixSumsFrom, ih]

theorem chain'_prefixSumsFrom (l : List ℚ) (h : ∀ x ∈ l, 0 ≤ x) :
    ∀ acc, List.Chain' (· ≤ ·) (prefixSumsFrom acc l) := by
  induction l with
  | nil => intro acc; simp [prefixSumsFrom]
  | cons x xs ih =>
    intro acc
    have hxs : ∀ y ∈ xs, 0 ≤ y := fun y hy => h y (by simp [hy])
    cases xs with
    | nil => simp [prefixSumsFrom]
    | cons y ys =>
      have h2 := ih hxs (acc + x)
      have hy : 0 ≤ y := hxs y (by simp)
      simp only [prefixSumsFrom] at h2 ⊢
      exact List.chain'_cons.mpr ⟨by linarith, h2⟩

/-- C5: for a vehicle with a non-empty route list sorted by `plan_start` and
non-negative mileages (with the physically non-negative efficiency and the
config-validated safety factor), the derived requirement list preserves route
ids and departure times as checkpoint times, gives each route the energy
`plan_mileage * efficiency * safety_factor`, makes the cumulative energies
the prefix sums of those energies in `plan_start` order, and those cumulative
values are non-decreasing. -/
theorem energyRequirements_spec (efficiency safety threshold : ℚ)
    (routes : List SchedRoute)
    (_hne : routes ≠ [])
    (hsorted : List.Sorted (fun a b => a.plan_start ≤ b.plan_start) routes)
    (hmil : ∀ r ∈ routes, 0 ≤ r.plan_mileage)
    (heff : 0 ≤ efficiency) (hsf : 0 ≤ safety) :
    ((calculateEnergyRequirements efficiency safety threshold routes).map
        (·.route_id) = routes.map (·.route_id)) ∧
    ((calculateEnergyRequirements efficiency safety threshold routes).map
        (·.route_energy_buffer_kwh)
      = routes.map (fun r => r.plan_mileage * efficiency * safety)) ∧
    ((calculateEnergyRequirements efficiency safety threshold routes).map
        (·.cumulative_energy_kwh)
      = prefixSumsFrom 0
          (routes.map (fun r => r.plan_mileage * efficiency * safety))) ∧
    ((calculateEnergyRequirements efficiency safety threshold routes).map
        (·.plan_start) = routes.map (·.plan_start)) ∧
    List.Chain' (· ≤ ·)
      ((calculateEnergyRequirements efficiency safety threshold routes).map
        (·.cumulative_energy_kwh)) := by
  have hsort_eq :
      List.insertionSort (fun a b => a.plan_start ≤ b.plan_start) routes
        = routes :=
    List.Sorted.insertionSort_eq hsorted
  unfold calculateEnergyRequirements
  rw [hsort_eq]
  refine ⟨calcEnergyAux_map_route_id _ _ _ _ _ _,
    calcEnergyAux_map_energy _ _ _ _ _ _,
    calcEnergyAux_map_cumulative _ _ _ _ _ _,
    calcEnergyAux_map_plan_start _ _ _ _ _ _, ?_⟩
  rw [calcEnergyAux_map_cumulative]
  refine chain'_prefixSumsFrom _ ?_ 0
  intro x hx
  rw [List.mem_map] at hx
  obtain ⟨r, hr, rfl⟩ := hx
  exact mul_nonneg (mul_nonneg (hmil r hr) heff) hsf

/-- Witness for C5 at a concrete two-route input. -/
theorem energyRequirements_witness :
    ([⟨1, 0, 100, 10⟩, ⟨2, 200, 300, 20⟩] : List SchedRoute) ≠ [] ∧
    List.Sorted (fun a b => a.plan_start ≤ b.plan_start)
      ([⟨1, 0, 100, 10⟩, ⟨2, 200, 300, 20⟩] : List SchedRoute) ∧
    (calculateEnergyRequirements 1 2 90
        [⟨1, 0, 100, 10⟩, ⟨2, 200, 300, 20⟩]).map (·.cumulative_energy_kwh)
      = [20, 60] :=
  ⟨by simp, by norm_num [List.sorted_cons],
    ((energyRequirements_spec 1 2 90 [⟨1, 0, 100, 10⟩, ⟨2, 200, 300, 20⟩]
      (by simp) (by norm_num [List.sorted_cons])
      (by norm_num [List.forall_mem_cons]) (by norm_num)
      (by norm_num)).2.2.1).trans (by norm_num [prefixSumsFrom])⟩

/-! ## Theorems: route checkpoint constraints (C2) -/

theorem vehicleToIdxFrom_of_not_mem (vid : ℕ) (l : List ℕ) (h : vid ∉ l) :
    ∀ i acc, vehicleToIdxFrom vid i l acc = acc := by
  induction l with
  | nil => intro i acc; rfl
  | cons v rest ih =>
    intro i acc
    have hv : ¬(v = vid) := fun he => h (by simp [he])
    have hr : vid ∉ rest := fun hm => h (by simp [hm])
    simp [vehicleToIdxFrom, hv, ih hr]

theorem vehicleToIdxFrom_get (l : List ℕ) (hnd : l.Nodup) :
    ∀ (j : ℕ) (hj : j < l.length) (i : ℕ) (acc : Option ℕ),
      vehicleToIdxFrom (l.get ⟨j, hj⟩) i l acc = some (i + j) := by
  induction l with
  | nil => intro j hj; simp at hj
  | cons v rest ih =>
    intro j hj i acc
    match j with
    | 0 =>
      have hv : v ∉ rest := (List.nodup_cons.mp hnd).1
      show vehicleToIdxFrom v (i + 1) rest
          (if v = v then some i else acc) = some (i + 0)
      rw [if_pos rfl, vehicleToIdxFrom_of_not_mem v rest hv]
      simp
    | k + 1 =>
      have hnd' : rest.Nodup := (List.nodup_cons.mp hnd).2
      have hk : k < rest.length := by
        simpa [Nat.succ_lt_succ_iff] using hj
      have hv : ¬(v = rest.get ⟨k, hk⟩) := by
        intro he
        exact (List.nodup_cons.mp hnd).1 (he ▸ List.get_mem rest k hk)
      show vehicleToIdxFrom (rest.get ⟨k, hk⟩) (i + 1) rest
          (if v = rest.get ⟨k, hk⟩ then some i else acc) = some (i + (k + 1))
      rw [if_neg hv, ih hnd' k hk (i + 1) acc]
      congr 1
      omega

theorem vehicleToIdx_get (vehicles : List ℕ) (hnd : vehicles.Nodup)
    (i : Fin vehicles.length) :
    vehicleToIdx vehicles (vehicles.get i) = some i.1 := by
  simpa using vehicleToIdxFrom_get vehicles hnd i.1 i.2 0 none

theorem max_zero_max (a b : ℚ) :
    max (max 0 a) (max 0 b) = max a (max b 0) := by
  simp only [max_def]
  split_ifs <;> linarith

/-- C2: for every vehicle with a present charge state and every route
energy requirement whose departure maps to slot index `tau ≥ 1`, the model
emitted by `ChargeOptimizer.optimize` contains the constraint
`cumulative_energy[tau - 1][v] ≥ max(E_k - soc, min_soc_target - soc, 0)`
with `min_soc_target = (min_soc_percent/100) * battery_capacity`. -/
theorem routeCheckpoint_constraint_emitted (vehicles : List ℕ)
    (states : ℕ → Option ChargeState) (reqs : ℕ → List EnergyRequirement)
    (timeSlots : List ℚ) (minSocPercent : ℚ)
    (hnd : vehicles.Nodup) (i : Fin vehicles.length) (st : ChargeState)
    (hst : states (vehicles.get i) = some st)
    (r : EnergyRequirement) (hr : r ∈ reqs (vehicles.get i))
    (tau : ℕ) (htau : findTimeSlotIndex r.plan_start timeSlots = some tau)
    (hpos : 1 ≤ tau) :
    (⟨i.1, tau - 1,
      max (r.cumulative_energy_kwh - st.current_soc_kwh)
        (max (minSocPercent / 100 * st.battery_capacity_kwh
          - st.current_soc_kwh) 0)⟩ : CumLBConstraint)
      ∈ routeCheckpointConstraints vehicles states reqs timeSlots
          minSocPercent := by
  unfold routeCheckpointConstraints
  rw [List.mem_flatMap]
  refine ⟨vehicles.get i, List.get_mem _ _ _, ?_⟩
  have hne : ¬(reqs (vehicles.get i) = []) := by
    intro h
    rw [h] at hr
    exact absurd hr (List.not_mem_nil r)
  rw [vehicleToIdx_get vehicles hnd i, hst]
  simp only [if_neg hne]
  rw [List.mem_flatMap]
  refine ⟨r, hr, ?_⟩
  have htau' : 0 < tau := by omega
  simp [htau, htau', max_zero_max]

/-- Witness for C2: one vehicle, one requirement departing at the second
slot. -/
theorem routeCheckpoint_constraint_emitted_witness :
    ([7] : List ℕ).Nodup ∧
    findTimeSlotIndex (60 : ℚ) [0, 60] = some 1 ∧
    (⟨0, 0, max ((30 : ℚ) - 10)
        (max ((75 : ℚ) / 100 * 100 - 10) 0)⟩ : CumLBConstraint)
      ∈ routeCheckpointConstraints [7]
          (fun _ => some ⟨10, 100, 11⟩)
          (fun _ => [⟨1, 60, 120, 5, 10, 30, 0, false, none⟩])
          [0, 60] 75 :=
  ⟨by decide, by norm_num [findTimeSlotIndex],
    routeCheckpoint_constraint_emitted [7]
      (fun _ => some ⟨10, 100, 11⟩)
      (fun _ => [⟨1, 60, 120, 5, 10, 30, 0, false, none⟩])
      [0, 60] 75 (by decide) ⟨0, by norm_num⟩ ⟨10, 100, 11⟩ rfl
      ⟨1, 60, 120, 5, 10, 30, 0, false, none⟩ (by simp) 1
      (by norm_num [findTimeSlotIndex]) le_rfl⟩

/-! ## Theorems: site capacity (C1) -/

/-- C1 (amended): any power assignment satisfying the site-capacity
constraints emitted by `ChargeOptimizer.optimize` keeps the per-slot total
charging power within `max(0, site_capacity - forecast(t))`; the greedy
fallback, which receives neither the forecast nor the site capacity, does
not enforce this bound (see the counterexample). -/
theorem siteCapacity_bound_holds (power : ℕ → ℕ → ℚ) (nVehicles : ℕ)
    (siteCapacityKw : ℚ) (forecastAt : ℚ → ℚ) (timeSlots : List ℚ)
    (hsat : satisfiesPowerUB power nVehicles
      (siteCapacityConstraints siteCapacityKw forecastAt timeSlots)) :
    ∀ (t : ℕ) (ht : t < timeSlots.length),
      totalChargingPower power t nVehicles ≤
        max 0 (siteCapacityKw - forecastAt (timeSlots.get ⟨t, ht⟩)) := by
  intro t ht
  have hmem : (⟨t, max 0 (siteCapacityKw -
        forecastAt (timeSlots.get ⟨t, ht⟩))⟩ : PowerUBConstraint)
      ∈ siteCapacityConstraints siteCapacityKw forecastAt timeSlots := by
    unfold siteCapacityConstraints
    rw [List.mem_flatMap]
    refine ⟨(t, timeSlots.get ⟨t, ht⟩), ?_, by simp⟩
    have h2 : t < timeSlots.enum.length := by simpa using ht
    have h3 := List.get_mem timeSlots.enum t h2
    simpa [List.get_eq_getElem, List.getElem_enum] using h3
  exact hsat _ hmem

/-- Witness for C1's amended theorem: the all-zero assignment on a
one-slot, one-vehicle instance. -/
theorem siteCapacity_bound_holds_witness :
    satisfiesPowerUB (fun _ _ => 0) 1
      (siteCapacityConstraints 10 (fun _ => 0) [0]) ∧
    totalChargingPower (fun _ _ => 0) 0 1 ≤ max 0 ((10 : ℚ) - 0) := by
  have hs : satisfiesPowerUB (fun _ _ => 0) 1
      (siteCapacityConstraints 10 (fun _ => 0) [0]) := by
    intro c hc
    simp only [siteCapacityConstraints, List.enum, List.enumFrom,
      List.flatMap_cons, List.flatMap_nil] at hc
    norm_num at hc
    rcases hc with rfl | rfl
    all_goals norm_num [totalChargingPower, List.range_succ]
  exact ⟨hs, by
    simpa using siteCapacity_bound_holds (fun _ _ => 0) 1 10 (fun _ => 0)
      [0] hs 0 (by norm_num)⟩

/-- C1 counterexample: two idle vehicles (SOC 0 kWh, battery 100 kWh,
rate 50 kW) and a single available slot.  The greedy fallback schedules
50 kW for each vehicle, 100 kW in total, even though with
`site_capacity_kw = 15` and zero forecast the capacity bound (plus a
1 kW tolerance) is far below that. -/
theorem greedyChargeFallback_exceeds_capacity_cex :
    totalScheduledPowerAt
      (greedyFallbackSchedules [1, 2] (fun _ => some ⟨0, 100, 50⟩)
        (fun _ => []) (fun _ => some [true]) [0] (fun _ => (1 / 10, false))
        75 75) 0 = 100 ∧
    max 0 ((15 : ℚ) - 0) + 1 < 100 := by
  refine ⟨?_, by norm_num⟩
  norm_num [greedyFallbackSchedules, greedyVehicleChargeSlots,
    targetEnergyKwh, slotPrices, greedyAllocateSlots, totalScheduledPowerAt,
    List.insertionSort, List.orderedInsert, List.enum, List.enumFrom,
    List.filterMap, min_def]

/-! ## Theorems: allocation exclusivity (C3) -/

theorem mem_insertNew_left (rids : List ℕ) :
    ∀ (covered : List ℕ) (a : ℕ), a ∈ covered → a ∈ insertNew covered rids := by
  induction rids with
  | nil => intro covered a h; simpa [insertNew] using h
  | cons r rs ih =>
    intro covered a h
    show a ∈ insertNew (if r ∈ covered then covered else covered ++ [r]) rs
    refine ih _ a ?_
    by_cases hr : r ∈ covered <;> simp [hr, h]

theorem mem_insertNew_right (rids : List ℕ) :
    ∀ (covered : List ℕ) (a : ℕ), a ∈ rids → a ∈ insertNew covered rids := by
  induction rids with
  | nil => intro covered a h; simp at h
  | cons r rs ih =>
    intro covered a h
    show a ∈ insertNew (if r ∈ covered then covered else covered ++ [r]) rs
    rcases List.mem_cons.mp h with rfl | hrs
    · refine mem_insertNew_left rs _ a ?_
      by_cases hr : a ∈ covered <;> simp [hr]
    · exact ih _ a hrs

theorem greedyAllocAux_spec (nRoutes : ℕ) (seqs : List AllocSequence) :
    ∀ (used covered : List ℕ),
      (∀ s ∈ greedyAllocAux nRoutes seqs used covered,
        s.vehicle_id ∉ used ∧ ∀ rid ∈ s.route_ids, rid ∉ covered) ∧
      List.Pairwise (fun a b => a.vehicle_id ≠ b.vehicle_id)
        (greedyAllocAux nRoutes seqs used covered) ∧
      List.Pairwise (fun a b => ∀ rid ∈ a.route_ids, rid ∉ b.route_ids)
        (greedyAllocAux nRoutes seqs used covered) := by
  induction seqs with
  | nil => intro used covered; simp [greedyAllocAux]
  | cons s rest ih =>
    intro used covered
    by_cases h1 : s.vehicle_id ∈ used
    · simpa [greedyAllocAux, h1] using ih used covered
    · by_cases h2 : ∃ rid ∈ s.route_ids, rid ∈ covered
      · simpa [greedyAllocAux, h1, h2] using ih used covered
      · have h2' : ∀ rid ∈ s.route_ids, rid ∉ covered := by
          intro rid hrid hc
          exact h2 ⟨rid, hrid, hc⟩
        by_cases h3 : (insertNew covered s.route_ids).length = nRoutes
        · have hres : greedyAllocAux nRoutes (s :: rest) used covered = [s] := by
            simp [greedyAllocAux, h1, h2, h3]
          rw [hres]
          refine ⟨?_, by simp, by simp⟩
          intro t ht
          rcases List.mem_cons.mp ht with rfl | ht'
          · exact ⟨h1, h2'⟩
          · simp at ht'
        · obtain ⟨hmem, hpv, hpr⟩ :=
            ih (s.vehicle_id :: used) (insertNew covered s.route_ids)
          have hres : greedyAllocAux nRoutes (s :: rest) used covered =
              s :: greedyAllocAux nRoutes rest (s.vehicle_id :: used)
                (insertNew covered s.route_ids) := by
            simp [greedyAllocAux, h1, h2, h3]
          rw [hres]
          refine ⟨?_, ?_, ?_⟩
          · intro t ht
            rcases List.mem_cons.mp ht with rfl | ht'
            · exact ⟨h1, h2'⟩
            · obtain ⟨htv, htr⟩ := hmem t ht'
              refine ⟨fun hu => htv (by simp [hu]), ?_⟩
              intro rid hrid hc
              exact htr rid hrid (mem_insertNew_left _ _ _ hc)
          · refine List.pairwise_cons.mpr ⟨?_, hpv⟩
            intro t ht heq
            exact (hmem t ht).1 (by simp [heq.symm])
          · refine List.pairwise_cons.mpr ⟨?_, hpr⟩
            intro t ht rid hrid hmt
            exact (hmem t ht).2 rid hmt (mem_insertNew_right _ _ _ hrid)

theorem two_le_selectedCount (x : ℕ → Bool) (idxs : List ℕ) (i j : ℕ)
    (hi : i ∈ idxs) (hj : j ∈ idxs) (hij : i ≠ j)
    (hxi : x i = true) (hxj : x j = true) :
    2 ≤ selectedCount x idxs := by
  have hif : i ∈ idxs.filter x := List.mem_filter.mpr ⟨hi, hxi⟩
  have hjf : j ∈ idxs.filter x := List.mem_filter.mpr ⟨hj, hxj⟩
  have hsub : ({i, j} : Finset ℕ) ⊆ (idxs.filter x).toFinset := by
    intro a ha
    rcases Finset.mem_insert.mp ha with rfl | ha
    · exact List.mem_toFinset.mpr hif
    · rw [Finset.mem_singleton] at ha
      subst ha
      exact List.mem_toFinset.mpr hjf
  calc 2 = ({i, j} : Finset ℕ).card := (Finset.card_pair hij).symm
    _ ≤ (idxs.filter x).toFinset.card := Finset.card_le_card hsub
    _ ≤ (idxs.filter x).length := List.toFinset_card_le _

theorem mem_seqIndicesForVehicle (seqs : List AllocSequence) (i : ℕ)
    (hi : i < seqs.length) :
    i ∈ seqIndicesForVehicle seqs (seqs.get ⟨i, hi⟩).vehicle_id := by
  unfold seqIndicesForVehicle
  rw [List.mem_map]
  refine ⟨(i, seqs.get ⟨i, hi⟩), ?_, rfl⟩
  rw [List.mem_filter]
  refine ⟨?_, by simp⟩
  have h2 : i < seqs.enum.length := by simpa using hi
  have h3 := List.get_mem seqs.enum i h2
  simpa [List.get_eq_getElem, List.getElem_enum] using h3

theorem mem_seqIndicesCoveringRoute (seqs : List AllocSequence) (i : ℕ)
    (hi : i < seqs.length) (rid : ℕ)
    (hrid : rid ∈ (seqs.get ⟨i, hi⟩).route_ids) :
    i ∈ seqIndicesCoveringRoute seqs rid := by
  unfold seqIndicesCoveringRoute
  rw [List.mem_map]
  refine ⟨(i, seqs.get ⟨i, hi⟩), ?_, rfl⟩
  rw [List.mem_filter]
  refine ⟨?_, by simpa using hrid⟩
  have h2 : i < seqs.enum.length := by simpa using hi
  have h3 := List.get_mem seqs.enum i h2
  simpa [List.get_eq_getElem, List.getElem_enum] using h3

/-- C3: allocation exclusivity.  First conjunct: the greedy fallback of
`HexalySolver` selects sequences with pairwise distinct vehicles and
pairwise disjoint route sets.  Second conjunct: any 0/1 assignment
satisfying the per-vehicle and per-route constraints emitted by
`HexalySolver.solve` (with all sequence routes drawn from `route_ids`)
likewise uses each vehicle and each route at most once. -/
theorem allocation_exclusivity (sequences : List AllocSequence)
    (routeIds : List ℕ) (x : ℕ → Bool)
    (hsat : allocExclusivityConstraintsHold sequences routeIds x)
    (hsub : ∀ s ∈ sequences, ∀ rid ∈ s.route_ids, rid ∈ routeIds) :
    (List.Pairwise (fun a b => a.vehicle_id ≠ b.vehicle_id)
        (greedyAllocFallback sequences routeIds) ∧
      List.Pairwise (fun a b => ∀ rid ∈ a.route_ids, rid ∉ b.route_ids)
        (greedyAllocFallback sequences routeIds)) ∧
    (∀ (i j : ℕ) (hi : i < sequences.length) (hj : j < sequences.length),
      i ≠ j → x i = true → x j = true →
      (sequences.get ⟨i, hi⟩).vehicle_id ≠
        (sequences.get ⟨j, hj⟩).vehicle_id ∧
      ∀ rid ∈ (sequences.get ⟨i, hi⟩).route_ids,
        rid ∉ (sequences.get ⟨j, hj⟩).route_ids) := by
  constructor
  · unfold greedyAllocFallback
    obtain ⟨_, hpv, hpr⟩ := greedyAllocAux_spec routeIds.length
      (List.insertionSort (fun a b => b.cost ≤ a.cost) sequences) [] []
    exact ⟨hpv, hpr⟩
  · intro i j hi hj hij hxi hxj
    constructor
    · intro heq
      have hmi := mem_seqIndicesForVehicle sequences i hi
      have hmj : j ∈ seqIndicesForVehicle sequences
          (sequences.get ⟨i, hi⟩).vehicle_id := by
        rw [heq]
        exact mem_seqIndicesForVehicle sequences j hj
      have h2 := two_le_selectedCount x _ i j hmi hmj hij hxi hxj
      have h1 := hsat.1 (sequences.get ⟨i, hi⟩).vehicle_id
        (List.mem_map.mpr ⟨_, List.get_mem _ _ _, rfl⟩)
      omega
    · intro rid hridi hridj
      have hmi := mem_seqIndicesCoveringRoute sequences i hi rid hridi
      have hmj := mem_seqIndicesCoveringRoute sequences j hj rid hridj
      have h2 := two_le_selectedCount x _ i j hmi hmj hij hxi hxj
      have h1 := hsat.2 rid (hsub _ (List.get_mem _ _ _) rid hridi)
      omega

/-- Witness for C3: two sequences competing for one route, selecting only
the first. -/
theorem allocation_exclusivity_witness :
    allocExclusivityConstraintsHold [⟨1, [10], 2⟩, ⟨2, [10], 1⟩] [10]
      (fun i => i == 0) ∧
    List.Pairwise (fun a b => a.vehicle_id ≠ b.vehicle_id)
      (greedyAllocFallback [⟨1, [10], 2⟩, ⟨2, [10], 1⟩] [10]) :=
  have hsat : allocExclusivityConstraintsHold
      [⟨1, [10], 2⟩, ⟨2, [10], 1⟩] [10] (fun i => i == 0) := by
    unfold allocExclusivityConstraintsHold
    decide
  ⟨hsat,
    ((allocation_exclusivity [⟨1, [10], 2⟩, ⟨2, [10], 1⟩] [10]
      (fun i => i == 0) hsat (by decide)).1).1⟩

/-! ## Theorems: allocation result creation (C7, C10) -/

theorem foldl_addAllocation_total (g : RouteInfo → RouteAllocationV)
    (routes : List RouteInfo) :
    ∀ res : AllocationResultV,
      (routes.foldl (fun r route => addAllocation r (g route))
          res).total_score
        = res.total_score + (routes.map (fun route => (g route).cost)).sum := by
  induction routes with
  | nil => intro res; simp
  | cons r rs ih =>
    intro res
    simp only [List.foldl_cons]
    rw [ih]
    simp [addAllocation, add_assoc]

theorem foldl_addAllocation_allocs (g : RouteInfo → RouteAllocationV)
    (routes : List RouteInfo) :
    ∀ res : AllocationResultV,
      (routes.foldl (fun r route => addAllocation r (g route))
          res).allocations
        = res.allocations ++ routes.map g := by
  induction routes with
  | nil => intro res; simp
  | cons r rs ih =>
    intro res
    simp only [List.foldl_cons]
    rw [ih]
    simp [addAllocation]

theorem foldl_seqs_total (sel : List SelectedSeq) :
    ∀ res : AllocationResultV,
      (sel.foldl (fun res s => s.route_sequence.foldl
          (fun r route => addAllocation r (mkRouteAllocation s route)) res)
          res).total_score
        = res.total_score + (sel.map (fun s =>
            ((s.route_sequence.map (fun route =>
              (mkRouteAllocation s route).cost)).sum))).sum := by
  induction sel with
  | nil => intro res; simp
  | cons s ss ih =>
    intro res
    simp only [List.foldl_cons, List.map_cons, List.sum_cons, ih,
      foldl_addAllocation_total]
    ring

theorem foldl_seqs_allocs (sel : List SelectedSeq) :
    ∀ res : AllocationResultV,
      (sel.foldl (fun res s => s.route_sequence.foldl
          (fun r route => addAllocation r (mkRouteAllocation s route)) res)
          res).allocations
        = res.allocations ++ sel.flatMap (fun s =>
            s.route_sequence.map (mkRouteAllocation s)) := by
  induction sel with
  | nil => intro res; simp
  | cons s ss ih =>
    intro res
    simp [ih, foldl_addAllocation_allocs]

theorem foldl_markUnallocated_total (rids : List ℕ) (allocated : List ℕ) :
    ∀ res : AllocationResultV,
      (rids.foldl (fun res rid => if rid ∈ allocated then res
          else markUnallocated res rid) res).total_score
        = res.total_score := by
  induction rids with
  | nil => intro res; simp
  | cons r rs ih =>
    intro res
    simp only [List.foldl_cons]
    by_cases h : r ∈ allocated
    · rw [if_pos h, ih]
    · rw [if_neg h, ih]
      simp [markUnallocated]

theorem foldl_markUnallocated_allocs (rids : List ℕ) (allocated : List ℕ) :
    ∀ res : AllocationResultV,
      (rids.foldl (fun res rid => if rid ∈ allocated then res
          else markUnallocated res rid) res).allocations
        = res.allocations := by
  induction rids with
  | nil => intro res; simp
  | cons r rs ih =>
    intro res
    simp only [List.foldl_cons]
    by_cases h : r ∈ allocated
    · rw [if_pos h, ih]
    · rw [if_neg h, ih]
      simp [markUnallocated]

/-- C7: `create_allocation_result` seeds `total_score` with the solution's
`total_score` and then `add_allocation` adds every per-route cost share
`cost/len` on top, so the final score is the solution score plus the sum of
the shares — and when the solution score is itself the sum of the selected
sequences' costs (as both solver paths make it) and no selected sequence is
empty, the score compared against `min_score` is exactly twice the solution
score. -/
theorem createAllocationResult_double_counts (sel : List SelectedSeq)
    (score : ℚ) (rids : List ℕ) :
    ((createAllocationResult sel score rids).total_score
      = score + (sel.map (fun s => ((s.route_sequence.map (fun _ =>
          s.cost / (s.route_sequence.length : ℚ))).sum))).sum) ∧
    ((∀ s ∈ sel, s.route_sequence ≠ []) →
      score = (sel.map (·.cost)).sum →
      (createAllocationResult sel score rids).total_score = 2 * score) := by
  have hmain : (createAllocationResult sel score rids).total_score
      = score + (sel.map (fun s => ((s.route_sequence.map (fun _ =>
          s.cost / (s.route_sequence.length : ℚ))).sum))).sum := by
    unfold createAllocationResult
    rw [foldl_markUnallocated_total, foldl_seqs_total]
    simp [mkRouteAllocation]
  refine ⟨hmain, fun hne hscore => ?_⟩
  rw [hmain]
  have hsum : sel.map (fun s => ((s.route_sequence.map (fun _ =>
      s.cost / (s.route_sequence.length : ℚ))).sum)) = sel.map (·.cost) := by
    refine List.map_congr_left ?_
    intro s hs
    have hlen : s.route_sequence.length ≠ 0 := by
      intro h
      exact hne s hs (List.length_eq_zero.mp h)
    have hlen' : (s.route_sequence.length : ℚ) ≠ 0 :=
      Nat.cast_ne_zero.mpr hlen
    rw [List.map_const', List.sum_replicate, nsmul_eq_mul]
    field_simp
  rw [hsum, ← hscore]
  ring

/-- Witness for C7: one selected sequence of two routes with cost 6 and
solution score 6; the resulting `total_score` is 12. -/
theorem createAllocationResult_double_counts_witness :
    ((∀ s ∈ ([⟨5, [⟨1, 100⟩, ⟨2, 200⟩], 6⟩] : List SelectedSeq),
        s.route_sequence ≠ []) ∧
      (6 : ℚ) = (([⟨5, [⟨1, 100⟩, ⟨2, 200⟩], 6⟩] :
        List SelectedSeq).map (·.cost)).sum) ∧
    (createAllocationResult [⟨5, [⟨1, 100⟩, ⟨2, 200⟩], 6⟩] 6
      [1, 2]).total_score = 2 * 6 :=
  ⟨⟨by simp, by simp⟩,
    (createAllocationResult_double_counts [⟨5, [⟨1, 100⟩, ⟨2, 200⟩], 6⟩] 6
      [1, 2]).2 (by simp) (by simp)⟩

/-- C10: every `RouteAllocation` built by `create_allocation_result` has
`estimated_arrival` equal to the route's `plan_end_date_time`, but its
`estimated_arrival_soc` is the constant placeholder `80.0`, independent of
the assigned vehicle's simulated energy state. -/
theorem createAllocationResult_arrival_and_soc (sel : List SelectedSeq)
    (score : ℚ) (rids : List ℕ) :
    (createAllocationResult sel score rids).allocations.map
        (fun a => (a.estimated_arrival, a.estimated_arrival_soc))
      = sel.flatMap (fun s => s.route_sequence.map
          (fun r => (r.plan_end_date_time, (80 : ℚ)))) := by
  have hallocs : (createAllocationResult sel score rids).allocations
      = sel.flatMap (fun s => s.route_sequence.map (mkRouteAllocation s)) := by
    unfold createAllocationResult
    rw [foldl_markUnallocated_allocs, foldl_seqs_allocs]
    simp
  rw [hallocs, List.map_flatMap]
  congr 1
  funext s
  rw [List.map_map]
  refine List.map_congr_left ?_
  intro r _
  simp [mkRouteAllocation, Function.comp_apply]

end AllocV2
